import Mathlib

/-!
Shallow embedding of `src/server.js` (Zaika Junction order-management server).

Modelling conventions:
* JavaScript numbers are modelled as rationals (`ℚ`); `NaN`/`Infinity` are outside
  the embedding's payload universe.
* A JSON field that may be absent (or of the wrong runtime type where the code
  guards for it) is modelled as an `Option`.
* Millisecond timestamps (`Date.now()`, `new Date().toISOString()`) are modelled
  as natural numbers supplied as an explicit `now` argument to each handler.
* Strings are Lean `String`s (lists of unicode characters), matching the
  character-level behaviour of the JavaScript string operations used.
-/

namespace Zaika

/-! ### Sanitizer (`sanitizeString`, server.js lines 180-185)

`str.replace(/<script\b[^<]*(?:(?!<\/script>)<[^<]*)*<\/script>/gi, '')
    .replace(/[<>]/g, '')
    .trim()`

The script-block regex, applied globally, removes every maximal block that
starts with a case-insensitive `<script` followed by a word boundary and ends
at the first following case-insensitive `</script>`; if no closing tag follows,
the candidate position does not match and scanning resumes one character later.
-/

/-- Case variants of the letters of `script`: lower-casing as in a
case-insensitive regex literal match. -/
def lowerChar (c : Char) : Char := c.toLower

/-- Does `l` start with the (lowercase) pattern `p`, compared case-insensitively? -/
def startsWithCI : List Char → List Char → Bool
  | [], _ => true
  | _ :: _, [] => false
  | p :: ps, c :: cs => (lowerChar c == p) && startsWithCI ps cs

/-- JavaScript `\w` (word character) for the `\b` boundary: `[A-Za-z0-9_]`. -/
def isWordChar (c : Char) : Bool := c.isAlpha || c.isDigit || c == '_'

/-- The boundary after `<script`: next character must not be a word character
(or the string ends). -/
def boundaryOk : List Char → Bool
  | [] => true
  | c :: _ => !isWordChar c

/-- Does a case-insensitive `<script\b` match start at the head of `l`? -/
def scriptOpenAt : List Char → Bool
  | c :: rest =>
      c == '<' && startsWithCI ['s', 'c', 'r', 'i', 'p', 't'] rest
        && boundaryOk (rest.drop 6)
  | [] => false

/-- Does a case-insensitive `</script>` start at the head of `l`? -/
def scriptCloseAt : List Char → Bool
  | c :: d :: rest =>
      c == '<' && d == '/' && startsWithCI ['s', 'c', 'r', 'i', 'p', 't'] rest
        && (match rest.drop 6 with
            | e :: _ => e == '>'
            | [] => false)
  | _ => false

/-- Scan for the first `</script>`; on success return the remainder of the list
after it (the regex match ends there). -/
def findClose : List Char → Option (List Char)
  | [] => none
  | c :: cs => if scriptCloseAt (c :: cs) then some (cs.drop 8) else findClose cs

/-- Global replacement of script blocks by the empty string, fuel-indexed so the
definition is structural (fuel `l.length` always suffices: every step strictly
shortens the list being scanned). -/
def removeScriptBlocksAux : Nat → List Char → List Char
  | 0, l => l
  | _ + 1, [] => []
  | fuel + 1, c :: cs =>
      if scriptOpenAt (c :: cs) then
        match findClose (cs.drop 6) with
        | some rest => removeScriptBlocksAux fuel rest
        | none => c :: removeScriptBlocksAux fuel cs
      else c :: removeScriptBlocksAux fuel cs

/-- First `replace` of `sanitizeString`. -/
def removeScriptBlocks (l : List Char) : List Char :=
  removeScriptBlocksAux l.length l

/-- Second `replace` of `sanitizeString`: `/[<>]/g` → delete every `<` and `>`. -/
def removeAngles (l : List Char) : List Char :=
  l.filter (fun c => !(c == '<' || c == '>'))

/-- The whitespace set of JavaScript `String.prototype.trim`. -/
def isJsWhitespace (c : Char) : Bool :=
  c == ' ' || c == '\t' || c == '\n' || c == '\r' ||
  c == '\x0b' || c == '\x0c' || c == ' ' || c == ' ' ||
  (0x2000 ≤ c.toNat && c.toNat ≤ 0x200A) ||
  c == ' ' || c == ' ' || c == ' ' || c == ' ' ||
  c == '　' || c == '﻿'

/-- JavaScript `trim`: drop whitespace from both ends. -/
def jsTrim (l : List Char) : List Char :=
  ((l.dropWhile isJsWhitespace).reverse.dropWhile isJsWhitespace).reverse

/-- `sanitizeString` on the character list of a string. -/
def sanitizeChars (l : List Char) : List Char :=
  jsTrim (removeAngles (removeScriptBlocks l))

/-- `sanitizeString` (server.js lines 180-185) on the string case; the
non-string early return is modelled at each call site by `Option.map`. -/
def sanitizeString (s : String) : String :=
  ⟨sanitizeChars s.data⟩

/-! ### Decimal rendering of timestamps

The order id is the template literal `` `ORD${Date.now()}` ``; JavaScript
renders the integral millisecond count in decimal. -/

/-- Decimal digit list (most significant first), fuel-indexed. -/
def natCharsAux : Nat → Nat → List Char
  | 0, _ => []
  | fuel + 1, n =>
      if n < 10 then [Nat.digitChar n]
      else natCharsAux fuel (n / 10) ++ [Nat.digitChar (n % 10)]

/-- Decimal rendering of a natural number, as in JavaScript number-to-string
conversion for integers. -/
def natChars (n : Nat) : List Char := natCharsAux (n + 1) n

/-- `` `ORD${Date.now()}` `` (server.js line 387). -/
def orderId (now : Nat) : String := ⟨'O' :: 'R' :: 'D' :: natChars now⟩

/-! ### Data model -/

/-- One entry of a request's `items` array. Fields may be absent or of a
non-numeric/non-string runtime type, which the validator treats identically. -/
structure LineItem where
  id : Option ℚ
  name : Option String
  price : Option ℚ
  quantity : Option ℚ
  deriving Repr, DecidableEq

/-- `customerInfo.address` (only `fullAddress` is touched by the server). -/
structure Address where
  fullAddress : Option String
  deriving Repr, DecidableEq

/-- `customerInfo` of a request, and equally the sanitized stored form. -/
structure CustomerInfo where
  name : Option String
  phone : Option String
  address : Option Address
  deriving Repr, DecidableEq

/-- The body of `POST /api/orders`. -/
structure Payload where
  items : Option (List LineItem)
  total : Option ℚ
  customerInfo : Option CustomerInfo
  paymentMethod : Option String
  deliveryCharge : Option ℚ
  deriving Repr, DecidableEq

/-- A menu catalog entry (server.js lines 75-133 and `POST /api/menu`). -/
structure MenuItem where
  id : ℚ
  name : Option String
  category : Option String
  price : Option ℚ
  description : Option String
  emoji : Option String
  rating : Option ℚ
  popular : Option Bool
  premium : Option Bool
  available : Bool
  preparationTime : Option ℚ
  createdAtMs : Option Nat
  updatedAtMs : Option Nat
  deriving Repr, DecidableEq

/-- A stored order (server.js lines 386-400). `createdAt` is the millisecond
timestamp rendered into both `id` and the ISO `createdAt` string. -/
structure Order where
  id : String
  items : List LineItem
  total : ℚ
  customer : CustomerInfo
  paymentMethod : String
  deliveryCharge : ℚ
  status : String
  createdAt : Nat
  estimatedTime : ℤ
  orderNumber : Nat
  updatedAt : Option Nat
  deriving Repr, DecidableEq

/-- The immutable part of an order: everything except `status` and `updatedAt`. -/
structure OrderCore where
  id : String
  items : List LineItem
  total : ℚ
  customer : CustomerInfo
  paymentMethod : String
  deliveryCharge : ℚ
  createdAt : Nat
  estimatedTime : ℤ
  orderNumber : Nat
  deriving Repr, DecidableEq

/-- Project an order to its immutable fields. -/
def Order.core (o : Order) : OrderCore :=
  ⟨o.id, o.items, o.total, o.customer, o.paymentMethod, o.deliveryCharge,
    o.createdAt, o.estimatedTime, o.orderNumber⟩

/-- Payload of the `joinRoom` socket message. -/
structure JoinData where
  userType : Option String
  userId : Option String
  deriving Repr, DecidableEq

/-- A value of the `connectedUsers` map (server.js line 569). -/
structure ConnEntry where
  userType : String
  userId : Option String
  roomName : String
  joinedAt : Nat
  deriving Repr, DecidableEq

/-- The server's mutable state: `orders`, `menuItems`, `connectedUsers`
(server.js lines 66-71; `restaurants`, `customers` and `notifications` are
initialized but never read or written by any handler modelled here). -/
structure ServerState where
  orders : List Order
  menuItems : List MenuItem
  connectedUsers : List (String × ConnEntry)
  deriving Repr, DecidableEq

/-! ### Validator (`validateOrderData`, server.js lines 150-178) -/

/-- The violations pushed for one entry of `items` (loop body, lines 165-175);
`idx` is the zero-based `forEach` index. -/
def itemErrs (idx : Nat) (it : LineItem) : List String :=
  (match it.name with
   | none => ["Item " ++ toString (idx + 1) ++ ": name is required"]
   | some s =>
       if s = "" then ["Item " ++ toString (idx + 1) ++ ": name is required"]
       else []) ++
  (match it.price with
   | none => ["Item " ++ toString (idx + 1) ++ ": price must be a positive number"]
   | some p =>
       if p ≤ 0 then ["Item " ++ toString (idx + 1) ++ ": price must be a positive number"]
       else []) ++
  (match it.quantity with
   | none => ["Item " ++ toString (idx + 1) ++ ": quantity must be a positive number"]
   | some q =>
       if q ≤ 0 then ["Item " ++ toString (idx + 1) ++ ": quantity must be a positive number"]
       else [])

/-- The `items?.forEach((item, index) => ...)` loop with its running index. -/
def itemErrsFrom : Nat → List LineItem → List String
  | _, [] => []
  | idx, it :: rest => itemErrs idx it ++ itemErrsFrom (idx + 1) rest

/-- `validateOrderData` (server.js lines 150-178): all rules are checked and
their messages concatenated in program order. -/
def validateOrderData (p : Payload) : List String :=
  (match p.items with
   | none => ["Items are required and must be a non-empty array"]
   | some [] => ["Items are required and must be a non-empty array"]
   | some (_ :: _) => []) ++
  (match p.total with
   | none => ["Total must be a positive number"]
   | some t => if t ≤ 0 then ["Total must be a positive number"] else []) ++
  (match p.customerInfo with
   | none => ["Customer name is required"]
   | some ci =>
       match ci.name with
       | none => ["Customer name is required"]
       | some s => if s = "" then ["Customer name is required"] else []) ++
  (match p.items with
   | none => []
   | some l => itemErrsFrom 0 l)

/-! ### Estimation policy (`calculateEstimatedTime`, server.js lines 187-197) -/

/-- The per-line preparation-time lookup
`(menuItems.find(mi => mi.id === item.id)?.preparationTime || 10)`. -/
def prepOf (menu : List MenuItem) (it : LineItem) : ℚ :=
  match menu.find? (fun mi =>
      match it.id with
      | some v => mi.id == v
      | none => false) with
  | none => 10
  | some mi =>
      match mi.preparationTime with
      | none => 10
      | some p => if p == 0 then 10 else p

/-- `calculateEstimatedTime` (server.js lines 187-197). `none` models a missing
or non-array `items` value (an empty array is an array and is truthy in
JavaScript, so it does not take the early return). -/
def calculateEstimatedTime (menu : List MenuItem) (items : Option (List LineItem)) : ℤ :=
  match items with
  | none => 30
  | some l =>
      let baseTime : ℤ := 15
      let itemTime : ℚ := l.foldl (fun acc it => acc + prepOf menu it * it.quantity.getD 0) 0
      min (max (baseTime + ⌈itemTime / 2⌉) 15) 60

/-! ### Initial data (`initializeData`, server.js lines 74-147) -/

/-- The five initial menu items. -/
def initMenuItems : List MenuItem :=
  [ { id := 1, name := some "Gulab Jamun", category := some "sweets", price := some 120,
      description := some "Soft, spongy balls soaked in aromatic sugar syrup",
      emoji := some "🍯", rating := some 4.8, popular := some true, premium := none,
      available := true, preparationTime := some 15, createdAtMs := none, updatedAtMs := none },
    { id := 2, name := some "Rasgulla", category := some "sweets", price := some 100,
      description := some "Spongy cottage cheese balls in light sugar syrup",
      emoji := some "🥛", rating := some 4.6, popular := none, premium := none,
      available := true, preparationTime := some 10, createdAtMs := none, updatedAtMs := none },
    { id := 3, name := some "Kaju Katli", category := some "sweets", price := some 300,
      description := some "Premium cashew fudge with silver leaf",
      emoji := some "💎", rating := some 4.9, popular := none, premium := some true,
      available := true, preparationTime := some 20, createdAtMs := none, updatedAtMs := none },
    { id := 4, name := some "Samosa", category := some "snacks", price := some 25,
      description := some "Crispy triangular pastry with spiced potato filling",
      emoji := some "🥟", rating := some 4.5, popular := none, premium := none,
      available := true, preparationTime := some 8, createdAtMs := none, updatedAtMs := none },
    { id := 5, name := some "Bhel Puri", category := some "snacks", price := some 40,
      description := some "Mumbai street food with puffed rice and chutneys",
      emoji := some "🥗", rating := some 4.3, popular := none, premium := none,
      available := true, preparationTime := some 5, createdAtMs := none, updatedAtMs := none } ]

/-- The state right after `initializeData()` runs (server.js line 200). -/
def initialState : ServerState :=
  { orders := [], menuItems := initMenuItems, connectedUsers := [] }

/-! ### Generic list helpers mirroring the JavaScript mutation patterns -/

/-- `arr[arr.findIndex(p)] = f(arr[...])`: rewrite the first element satisfying
`p`, leave the rest untouched. -/
def updateFirst (p : α → Bool) (f : α → α) : List α → List α
  | [] => []
  | a :: as => if p a then f a :: as else a :: updateFirst p f as

/-- `arr.splice(arr.findIndex(p), 1)`: drop the first element satisfying `p`. -/
def removeFirst (p : α → Bool) : List α → List α
  | [] => []
  | a :: as => if p a then as else a :: removeFirst p as

/-- `Map.prototype.set`: replace the value under an existing key, else append
a new entry in insertion order. -/
def mapSet (m : List (String × ConnEntry)) (k : String) (v : ConnEntry) :
    List (String × ConnEntry) :=
  if m.any (fun e => e.1 == k) then
    m.map (fun e => if e.1 == k then (k, v) else e)
  else m ++ [(k, v)]

/-! ### Broadcast events -/

/-- A realtime emission: `io.emit`, `io.to(room).emit` or `socket.emit`. -/
inductive Emit where
  | toAll (event : String)
  | toRoom (room : String) (event : String)
  | toSocket (sid : String) (event : String)
  deriving Repr, DecidableEq

/-! ### HTTP handlers -/

/-- Outcome of `POST /api/orders`. -/
inductive PostOrderResult where
  | created (o : Order)
  | invalid (errors : List String)
  deriving Repr, DecidableEq

/-- The `newOrder` object literal of `POST /api/orders` (server.js lines
386-400). The `getD` defaults model property access on fields the preceding
validation guarantees to be present. -/
def buildOrder (st : ServerState) (body : Payload) (now : Nat) : Order :=
  let ci := body.customerInfo.getD ⟨none, none, none⟩
  { id := orderId now
    items := (body.items.getD []).map (fun it => { it with name := it.name.map sanitizeString })
    total := body.total.getD 0
    customer :=
      { name := ci.name.map sanitizeString
        phone := ci.phone.map sanitizeString
        address := ci.address.map (fun a => ⟨a.fullAddress.map sanitizeString⟩) }
    paymentMethod :=
      match body.paymentMethod with
      | none => "COD"
      | some s => if sanitizeString s = "" then "COD" else sanitizeString s
    deliveryCharge := body.deliveryCharge.getD 0
    status := "pending"
    createdAt := now
    estimatedTime := calculateEstimatedTime st.menuItems body.items
    orderNumber := st.orders.length + 1
    updatedAt := none }

/-- `POST /api/orders` (server.js lines 362-448): validate, sanitize, build
the new order and insert it at the front of `orders` (`orders.unshift`). -/
def postOrder (st : ServerState) (body : Payload) (now : Nat) :
    ServerState × PostOrderResult :=
  if validateOrderData body = [] then
    ({ st with orders := buildOrder st body now :: st.orders },
      .created (buildOrder st body now))
  else (st, .invalid (validateOrderData body))

/-- The closed status enum (server.js line 456). -/
def validStatuses : List String :=
  ["pending", "preparing", "ready", "delivered", "cancelled"]

/-- Outcome of `PUT /api/orders/:id/status`. -/
inductive PutStatusResult where
  | badStatus
  | notFound
  | updated
  deriving Repr, DecidableEq

/-- `PUT /api/orders/:id/status` (server.js lines 450-507): reject a status
outside the closed enum with 400 before touching any state; else update the
first matching order's `status` and `updatedAt` in place. -/
def putOrderStatus (st : ServerState) (oid s : String) (now : Nat) :
    ServerState × PutStatusResult :=
  if s ∈ validStatuses then
    if st.orders.any (fun o => o.id == oid) then
      ({ st with
          orders := updateFirst (fun o => o.id == oid)
            (fun o => { o with status := s, updatedAt := some now }) st.orders },
        .updated)
    else (st, .notFound)
  else (st, .badStatus)

/-- `GET /api/orders` returns `orders` as is; an individual lookup (also used
by `trackOrder`) is a `findIndex`-style first-match scan. -/
def getOrder (st : ServerState) (oid : String) : Option Order :=
  st.orders.find? (fun o => o.id == oid)

/-- The body of `POST /api/menu` / `PUT /api/menu/:id` (arbitrary JSON spread
into the item; only the fields the server ever reads are modelled). -/
structure MenuPayload where
  id : Option ℚ
  name : Option String
  category : Option String
  price : Option ℚ
  description : Option String
  emoji : Option String
  rating : Option ℚ
  popular : Option Bool
  premium : Option Bool
  available : Option Bool
  preparationTime : Option ℚ
  deriving Repr, DecidableEq

/-- `POST /api/menu` (server.js lines 247-274): `{id: Date.now(), ...body,
available: true, createdAt}` pushed at the end — a body `id` overrides the
timestamp because the spread comes after it, while `available` is forced
to `true` because it comes after the spread. -/
def postMenu (st : ServerState) (body : MenuPayload) (now : Nat) :
    ServerState × List Emit :=
  let newItem : MenuItem :=
    { id := body.id.getD (now : ℚ)
      name := body.name, category := body.category, price := body.price
      description := body.description, emoji := body.emoji, rating := body.rating
      popular := body.popular, premium := body.premium
      available := true
      preparationTime := body.preparationTime
      createdAtMs := some now, updatedAtMs := none }
  ({ st with menuItems := st.menuItems ++ [newItem] }, [.toAll "menuUpdated"])

/-- `{...item, ...patch, updatedAt}`: a patch field overrides when present. -/
def mergeMenuPatch (mi : MenuItem) (patch : MenuPayload) (now : Nat) : MenuItem :=
  { id := patch.id.getD mi.id
    name := match patch.name with | some v => some v | none => mi.name
    category := match patch.category with | some v => some v | none => mi.category
    price := match patch.price with | some v => some v | none => mi.price
    description := match patch.description with | some v => some v | none => mi.description
    emoji := match patch.emoji with | some v => some v | none => mi.emoji
    rating := match patch.rating with | some v => some v | none => mi.rating
    popular := match patch.popular with | some v => some v | none => mi.popular
    premium := match patch.premium with | some v => some v | none => mi.premium
    available := patch.available.getD mi.available
    preparationTime :=
      match patch.preparationTime with | some v => some v | none => mi.preparationTime
    createdAtMs := mi.createdAtMs
    updatedAtMs := some now }

/-- Comparison of a menu item id against `parseInt(req.params.id)` or a socket
payload's `itemId` (`none` models `NaN`/a non-number, which `===` never equals). -/
def idMatches (target : Option ℚ) (mi : MenuItem) : Bool :=
  match target with
  | some v => mi.id == v
  | none => false

/-- `PUT /api/menu/:id` (server.js lines 276-311). -/
def putMenu (st : ServerState) (itemId : Option ℚ) (patch : MenuPayload) (now : Nat) :
    ServerState × List Emit :=
  if st.menuItems.any (idMatches itemId) then
    ({ st with menuItems := updateFirst (idMatches itemId) (fun mi => mergeMenuPatch mi patch now) st.menuItems },
      [.toAll "menuUpdated"])
  else (st, [])

/-- `DELETE /api/menu/:id` (server.js lines 313-343). -/
def deleteMenu (st : ServerState) (itemId : Option ℚ) : ServerState × List Emit :=
  if st.menuItems.any (idMatches itemId) then
    ({ st with menuItems := removeFirst (idMatches itemId) st.menuItems },
      [.toAll "menuUpdated"])
  else (st, [])

/-! ### Socket handlers -/

/-- `socket.on('joinRoom')` (server.js lines 549-600): requires a truthy
`userType`, derives the room name as `` `${userType}_room` ``, writes the
presence entry and broadcasts fresh connection statistics. -/
def joinRoom (st : ServerState) (sid : String) (data : Option JoinData) (now : Nat) :
    ServerState × List Emit :=
  match data with
  | none => (st, [.toSocket sid "error"])
  | some d =>
      match d.userType with
      | none => (st, [.toSocket sid "error"])
      | some ut =>
          if ut = "" then (st, [.toSocket sid "error"])
          else
            let roomName := ut ++ "_room"
            ({ st with connectedUsers :=
                  mapSet st.connectedUsers sid ⟨ut, d.userId, roomName, now⟩ },
              [.toSocket sid "connected", .toAll "connectionStats"])

/-- The connection statistics `{customers, restaurants, total}` recomputed on
every membership change (server.js lines 583-591). -/
def connectionStats (st : ServerState) : Nat × Nat × Nat :=
  ((st.connectedUsers.filter (fun e => e.2.userType == "customer")).length,
   (st.connectedUsers.filter (fun e => e.2.userType == "restaurant")).length,
   st.connectedUsers.length)

/-- `socket.on('trackOrder')` (server.js lines 603-620): read-only. -/
def trackOrder (st : ServerState) (sid oid : String) : ServerState × List Emit :=
  match getOrder st oid with
  | some _ => (st, [.toSocket sid "orderTrackingUpdate"])
  | none => (st, [.toSocket sid "orderNotFound"])

/-- `socket.on('toggleItemAvailability')` (server.js lines 623-640): an unknown
`itemId` falls through the `findIndex` guard with no mutation and no emission. -/
def toggleItemAvailability (st : ServerState) (itemId : Option ℚ) (avail : Bool) :
    ServerState × List Emit :=
  if st.menuItems.any (idMatches itemId) then
    ({ st with menuItems := updateFirst (idMatches itemId) (fun mi => { mi with available := avail }) st.menuItems },
      [.toAll "menuUpdated"])
  else (st, [])

/-- `socket.on('disconnect')` (server.js lines 653-682). -/
def disconnect (st : ServerState) (sid : String) : ServerState × List Emit :=
  if st.connectedUsers.any (fun e => e.1 == sid) then
    ({ st with connectedUsers := st.connectedUsers.filter (fun e => !(e.1 == sid)) },
      [.toAll "connectionStats"])
  else (st, [])

/-! ### Operations and traces -/

/-- One inbound mutation or realtime message; every state-touching handler of
the server is one constructor. Each op that reads the clock carries its
`Date.now()` value. -/
inductive Op where
  | postOrder (body : Payload) (now : Nat)
  | putOrderStatus (oid : String) (status : String) (now : Nat)
  | postMenu (body : MenuPayload) (now : Nat)
  | putMenu (itemId : Option ℚ) (patch : MenuPayload) (now : Nat)
  | deleteMenu (itemId : Option ℚ)
  | toggleItemAvailability (itemId : Option ℚ) (avail : Bool)
  | joinRoom (sid : String) (data : Option JoinData) (now : Nat)
  | trackOrder (sid : String) (oid : String)
  | disconnect (sid : String)
  deriving Repr, DecidableEq

/-- The clock value an operation observes, if it reads the clock. -/
def opNow : Op → Option Nat
  | .postOrder _ now => some now
  | .putOrderStatus _ _ now => some now
  | .postMenu _ now => some now
  | .putMenu _ _ now => some now
  | .joinRoom _ _ now => some now
  | _ => none

/-- State transition of one operation (responses and emissions dropped). -/
def step (st : ServerState) : Op → ServerState
  | .postOrder body now => (postOrder st body now).1
  | .putOrderStatus oid s now => (putOrderStatus st oid s now).1
  | .postMenu body now => (postMenu st body now).1
  | .putMenu itemId patch now => (putMenu st itemId patch now).1
  | .deleteMenu itemId => (deleteMenu st itemId).1
  | .toggleItemAvailability itemId avail => (toggleItemAvailability st itemId avail).1
  | .joinRoom sid data now => (joinRoom st sid data now).1
  | .trackOrder sid oid => (trackOrder st sid oid).1
  | .disconnect sid => (disconnect st sid).1

/-- Run a trace of operations from a state. -/
def execFrom : ServerState → List Op → ServerState
  | st, [] => st
  | st, op :: rest => execFrom (step st op) rest

/-- Run a trace from the initial state. -/
def exec (ops : List Op) : ServerState := execFrom initialState ops

/-- The serialized-clock assumption of the spec (§5): clock readings along the
trace are strictly increasing, and at least `lb`. -/
def nowsMonoB : Nat → List Op → Bool
  | _, [] => true
  | lb, op :: rest =>
      match opNow op with
      | some n => Nat.ble lb n && nowsMonoB (n + 1) rest
      | none => nowsMonoB lb rest

/-- The least upper bound the clock has moved past after a trace. -/
def finalLB : Nat → List Op → Nat
  | lb, [] => lb
  | lb, op :: rest =>
      match opNow op with
      | some n => finalLB (n + 1) rest
      | none => finalLB lb rest

/-- Validity of one line item as the spec words it (§4.4): a non-empty string
name, a positive number price, a positive number quantity. -/
def specValidLine (it : LineItem) : Prop :=
  (∃ s, it.name = some s ∧ s ≠ "") ∧
  (∃ q, it.price = some q ∧ 0 < q) ∧
  (∃ q, it.quantity = some q ∧ 0 < q)

/-- Validity of an order payload as the spec words it (§4.4): items present,
an array and non-empty; total a positive number; customer name present and
non-empty; every line item valid. Stated independently of `validateOrderData`
so the two can be compared. -/
def specValidPayload (p : Payload) : Prop :=
  (∃ l, p.items = some l ∧ l ≠ []) ∧
  (∃ t, p.total = some t ∧ 0 < t) ∧
  (∃ ci s, p.customerInfo = some ci ∧ ci.name = some s ∧ s ≠ "") ∧
  (∀ l, p.items = some l → ∀ it ∈ l, specValidLine it)

/-- `[n, n-1, ..., 1]`: the order numbers of a store of `n` orders, newest
first. -/
def countdown : Nat → List Nat
  | 0 => []
  | n + 1 => (n + 1) :: countdown n

/-- The order-store invariant maintained by every operation, relative to a
strict upper bound `lb` on every clock value observed so far: all stored
timestamps are below `lb`, creation times strictly decrease front to back,
each id is the rendering of the creation time, and the order numbers are
exactly `length, length-1, ..., 1`. -/
structure Inv (st : ServerState) (lb : Nat) : Prop where
  createdLt : ∀ o ∈ st.orders, o.createdAt < lb
  updatedLt : ∀ o ∈ st.orders, ∀ t, o.updatedAt = some t → t < lb
  createdDesc : (st.orders.map Order.createdAt).Pairwise (· > ·)
  idEq : ∀ o ∈ st.orders, o.id = orderId o.createdAt
  nums : st.orders.map Order.orderNumber = countdown st.orders.length

/-- The presence invariant: every registered connection's room is derived from
its user type as `` `${userType}_room` ``. -/
def RoomInv (st : ServerState) : Prop :=
  ∀ e ∈ st.connectedUsers, e.2.roomName = e.2.userType ++ "_room"

/-- A payload whose `customerInfo.name` is missing (no customer info, no name
field, or the empty string — exactly the cases the validator flags). -/
def nameMissing (p : Payload) : Prop :=
  p.customerInfo = none ∨
  ∃ ci, p.customerInfo = some ci ∧ (ci.name = none ∨ ci.name = some "")

/-- A well-formed concrete payload, used to instantiate the creation
properties. -/
def samplePayload : Payload :=
  { items := some [{ id := some 2, name := some "Rasgulla", price := some 100, quantity := some 1 }]
    total := some 100
    customerInfo := some { name := some "Asha", phone := none, address := none }
    paymentMethod := none
    deliveryCharge := none }

/-- A concrete serialized trace: one order created at t=100, its status
updated at t=150. -/
def sampleTrace : List Op :=
  [Op.postOrder samplePayload 100,
   Op.putOrderStatus (orderId 100) "preparing" 150]

/-- A concrete trace with just one order creation at t=100. -/
def createTrace : List Op :=
  [Op.postOrder samplePayload 100]

/-- A concrete payload whose `customerInfo.name` is missing. -/
def namelessPayload : Payload :=
  { items := some [{ id := some 1, name := some "Gulab Jamun", price := some 120, quantity := some 2 }]
    total := some 240
    customerInfo := some { name := none, phone := none, address := none }
    paymentMethod := none
    deliveryCharge := none }

/-- A concrete payload that passes validation although its customer name
sanitizes to the empty string. -/
def angleNamePayload : Payload :=
  { items := some [{ id := some 4, name := some "Samosa", price := some 25, quantity := some 1 }]
    total := some 25
    customerInfo := some { name := some "<>", phone := none, address := none }
    paymentMethod := none
    deliveryCharge := none }

/-- A single line of quantity 2 whose `id` resolves to the catalog item with
`preparationTime = 10` (Rasgulla). -/
def qtyTwoLine : LineItem :=
  { id := some 2, name := some "Rasgulla", price := some 100, quantity := some 2 }

/-- A join of a connection whose declared user type is neither `customer` nor
`restaurant`. -/
def zebraTrace : List Op :=
  [Op.joinRoom "s1" (some { userType := some "zebra", userId := some "u1" }) 5]

/-! ## Lemmas about the sanitizer -/

theorem mem_removeAngles {c : Char} {l : List Char} (h : c ∈ removeAngles l) :
    c ∈ l ∧ c ≠ '<' ∧ c ≠ '>' := by
  unfold removeAngles at h
  have := List.mem_filter.mp h
  simpa using this

theorem removeAngles_eq_self {l : List Char} (h : ∀ c ∈ l, c ≠ '<' ∧ c ≠ '>') :
    removeAngles l = l := by
  unfold removeAngles
  rw [List.filter_eq_self]
  intro c hc
  simpa using h c hc

theorem removeScriptBlocksAux_of_no_lt (fuel : Nat) :
    ∀ l : List Char, (∀ c ∈ l, c ≠ '<') → removeScriptBlocksAux fuel l = l := by
  induction fuel with
  | zero => intro l _; rfl
  | succ fuel ih =>
    intro l h
    match l with
    | [] => rfl
    | c :: cs =>
      have hc : (c == '<') = false := by
        simp only [beq_eq_false_iff_ne]
        exact h c (by simp)
      have hopen : scriptOpenAt (c :: cs) = false := by
        simp [scriptOpenAt, hc]
      simp only [removeScriptBlocksAux, hopen, Bool.false_eq_true, if_false]
      rw [ih cs (fun x hx => h x (by simp [hx]))]

theorem removeScriptBlocks_of_no_lt {l : List Char} (h : ∀ c ∈ l, c ≠ '<') :
    removeScriptBlocks l = l :=
  removeScriptBlocksAux_of_no_lt l.length l h

theorem dropWhile_dropWhile (p : α → Bool) :
    ∀ l : List α, List.dropWhile p (List.dropWhile p l) = List.dropWhile p l := by
  intro l
  induction l with
  | nil => rfl
  | cons c cs ih =>
    by_cases hpc : p c = true
    · simp [List.dropWhile, hpc, ih]
    · simp [List.dropWhile, hpc]

theorem dropWhile_append_eq (p : α → Bool) :
    ∀ l : List α, ∃ u, u ++ List.dropWhile p l = l := by
  intro l
  induction l with
  | nil => exact ⟨[], rfl⟩
  | cons c cs ih =>
    by_cases hpc : p c = true
    · obtain ⟨u, hu⟩ := ih
      exact ⟨c :: u, by simp [List.dropWhile, hpc, hu]⟩
    · exact ⟨[], by simp [List.dropWhile, hpc]⟩

theorem dropWhile_head_false (p : α → Bool) :
    ∀ l c rest, List.dropWhile p l = c :: rest → p c = false := by
  intro l
  induction l with
  | nil => intro c rest h; simp [List.dropWhile] at h
  | cons a as ih =>
    intro c rest h
    by_cases hpa : p a = true
    · rw [List.dropWhile_cons_of_pos hpa] at h
      exact ih c rest h
    · rw [List.dropWhile_cons_of_neg hpa] at h
      cases h
      simpa using hpa

theorem mem_dropWhile_sub (p : α → Bool) {a : α} {l : List α}
    (h : a ∈ List.dropWhile p l) : a ∈ l := by
  obtain ⟨u, hu⟩ := dropWhile_append_eq p l
  rw [← hu]
  exact List.mem_append_right u h

theorem mem_jsTrim {c : Char} {l : List Char} (h : c ∈ jsTrim l) : c ∈ l := by
  unfold jsTrim at h
  rw [List.mem_reverse] at h
  have h1 := mem_dropWhile_sub _ h
  rw [List.mem_reverse] at h1
  exact mem_dropWhile_sub _ h1

theorem jsTrim_idem (l : List Char) : jsTrim (jsTrim l) = jsTrim l := by
  set p := isJsWhitespace with hp
  set t := l.dropWhile p with ht
  set r := t.reverse.dropWhile p with hr
  have hjs : jsTrim l = r.reverse := rfl
  have step1 : r.reverse.dropWhile p = r.reverse := by
    cases hrr : r.reverse with
    | nil => rfl
    | cons c rest =>
      obtain ⟨u, hu⟩ := dropWhile_append_eq p t.reverse
      rw [← hr] at hu
      have htr : t = r.reverse ++ u.reverse := by
        have := congrArg List.reverse hu
        simpa using this.symm
      have hth : t = c :: (rest ++ u.reverse) := by rw [htr, hrr]; rfl
      have hpc : p c = false := dropWhile_head_false p l c _ (by rw [← ht, hth])
      rw [List.dropWhile_cons_of_neg (by simp [hpc])]
  have step2 : List.dropWhile p r = r := by
    rw [hr]; exact dropWhile_dropWhile p t.reverse
  show ((r.reverse.dropWhile p).reverse.dropWhile p).reverse = r.reverse
  rw [step1, List.reverse_reverse, step2]

theorem mem_sanitizeChars {c : Char} {l : List Char} (h : c ∈ sanitizeChars l) :
    c ≠ '<' ∧ c ≠ '>' := by
  unfold sanitizeChars at h
  exact (mem_removeAngles (mem_jsTrim h)).2

theorem sanitizeChars_idem (l : List Char) :
    sanitizeChars (sanitizeChars l) = sanitizeChars l := by
  have h1 : removeScriptBlocks (sanitizeChars l) = sanitizeChars l :=
    removeScriptBlocks_of_no_lt (fun c hc => (mem_sanitizeChars hc).1)
  have h2 : removeAngles (sanitizeChars l) = sanitizeChars l :=
    removeAngles_eq_self (fun c hc => mem_sanitizeChars hc)
  show jsTrim (removeAngles (removeScriptBlocks (sanitizeChars l))) = sanitizeChars l
  rw [h1, h2]
  exact jsTrim_idem _

/-! ## Lemmas about the decimal rendering and order ids -/

theorem natCharsAux_stable (n : Nat) :
    ∀ f1 f2, n < f1 → n < f2 → natCharsAux f1 n = natCharsAux f2 n := by
  induction n using Nat.strong_induction_on with
  | _ n ih =>
    intro f1 f2 h1 h2
    obtain ⟨a, rfl⟩ : ∃ a, f1 = a + 1 := ⟨f1 - 1, by omega⟩
    obtain ⟨b, rfl⟩ : ∃ b, f2 = b + 1 := ⟨f2 - 1, by omega⟩
    by_cases hn : n < 10
    · simp [natCharsAux, hn]
    · simp only [natCharsAux, if_neg hn]
      have hd : n / 10 < n := Nat.div_lt_self (by omega) (by omega)
      rw [ih (n / 10) hd a b (by omega) (by omega)]

theorem natChars_of_lt {n : Nat} (h : n < 10) : natChars n = [Nat.digitChar n] := by
  simp [natChars, natCharsAux, h]

theorem natChars_of_ge {n : Nat} (h : 10 ≤ n) :
    natChars n = natChars (n / 10) ++ [Nat.digitChar (n % 10)] := by
  have h0 : natCharsAux (n + 1) n = natCharsAux n (n / 10) ++ [Nat.digitChar (n % 10)] := by
    simp [natCharsAux, Nat.not_lt.mpr h]
  have hd : n / 10 < n := Nat.div_lt_self (by omega) (by omega)
  rw [natChars, h0, natCharsAux_stable (n / 10) n (n / 10 + 1) (by omega) (by omega)]
  rfl

theorem natChars_ne_nil (n : Nat) : natChars n ≠ [] := by
  by_cases h : n < 10
  · rw [natChars_of_lt h]; simp
  · rw [natChars_of_ge (by omega)]; simp

theorem digitChar_inj :
    ∀ a : Nat, a < 10 → ∀ b : Nat, b < 10 → Nat.digitChar a = Nat.digitChar b → a = b := by
  decide

theorem natChars_inj : ∀ a b : Nat, natChars a = natChars b → a = b := by
  intro a
  induction a using Nat.strong_induction_on with
  | _ a ih =>
    intro b h
    by_cases ha : a < 10 <;> by_cases hb : b < 10
    · rw [natChars_of_lt ha, natChars_of_lt hb] at h
      exact digitChar_inj a ha b hb (by simpa using h)
    · exfalso
      rw [natChars_of_lt ha, natChars_of_ge (show 10 ≤ b by omega)] at h
      cases hnc : natChars (b / 10) with
      | nil => exact natChars_ne_nil _ hnc
      | cons x xs => rw [hnc] at h; simp at h
    · exfalso
      rw [natChars_of_ge (show 10 ≤ a by omega), natChars_of_lt hb] at h
      cases hnc : natChars (a / 10) with
      | nil => exact natChars_ne_nil _ hnc
      | cons x xs => rw [hnc] at h; simp at h
    · rw [natChars_of_ge (show 10 ≤ a by omega), natChars_of_ge (show 10 ≤ b by omega)] at h
      have h' := congrArg List.reverse h
      simp only [List.reverse_append, List.reverse_singleton, List.singleton_append,
        List.cons.injEq] at h'
      obtain ⟨h1, h2⟩ := h'
      have hm : a % 10 = b % 10 :=
        digitChar_inj _ (Nat.mod_lt _ (by omega)) _ (Nat.mod_lt _ (by omega)) h1
      have hrev : natChars (a / 10) = natChars (b / 10) := by
        have := congrArg List.reverse h2
        simpa using this
      have hdiv : a / 10 = b / 10 :=
        ih (a / 10) (Nat.div_lt_self (by omega) (by omega)) (b / 10) hrev
      omega

theorem orderId_inj : ∀ a b : Nat, orderId a = orderId b → a = b := by
  intro a b h
  have hd : ('O' :: 'R' :: 'D' :: natChars a) = ('O' :: 'R' :: 'D' :: natChars b) :=
    congrArg String.data h
  simp only [List.cons.injEq, true_and] at hd
  exact natChars_inj a b hd

/-! ## Characterization of the validator -/

theorem itemErrs_eq_nil (idx : Nat) (it : LineItem) :
    itemErrs idx it = [] ↔ specValidLine it := by
  rcases it with ⟨iid, nm, pr, qt⟩
  unfold itemErrs specValidLine
  cases nm <;> cases pr <;> cases qt <;> simp [List.append_eq_nil, not_le]

theorem itemErrsFrom_eq_nil :
    ∀ (idx : Nat) (l : List LineItem),
      itemErrsFrom idx l = [] ↔ ∀ it ∈ l, specValidLine it := by
  intro idx l
  induction l generalizing idx with
  | nil => simp [itemErrsFrom]
  | cons it rest ih =>
    simp only [itemErrsFrom, List.append_eq_nil, itemErrs_eq_nil, ih, List.mem_cons]
    constructor
    · rintro ⟨h1, h2⟩ x hx
      rcases hx with rfl | hx
      · exact h1
      · exact h2 x hx
    · intro h
      exact ⟨h it (Or.inl rfl), fun x hx => h x (Or.inr hx)⟩

theorem validateOrderData_eq_nil_iff (p : Payload) :
    validateOrderData p = [] ↔ specValidPayload p := by
  rcases p with ⟨items, total, ci, pm, dc⟩
  unfold validateOrderData specValidPayload
  rcases ci with _ | ⟨cn, cp, ca⟩
  · cases items <;> cases total <;> simp [List.append_eq_nil]
  · cases cn with
    | none => cases items <;> cases total <;> simp [List.append_eq_nil]
    | some s =>
      cases items with
      | none => cases total <;> simp [List.append_eq_nil]
      | some l =>
        cases l with
        | nil => cases total <;> simp [List.append_eq_nil]
        | cons it rest =>
          cases total with
          | none => simp [List.append_eq_nil]
          | some t =>
            simp [List.append_eq_nil, itemErrsFrom_eq_nil, not_le]

/-! ## Lemmas about the in-place update patterns -/

theorem mem_updateFirst {p : α → Bool} {f : α → α} :
    ∀ {l : List α} {a : α}, a ∈ updateFirst p f l → a ∈ l ∨ ∃ b ∈ l, a = f b := by
  intro l
  induction l with
  | nil => intro a h; simp [updateFirst] at h
  | cons x xs ih =>
    intro a h
    by_cases hpx : p x = true
    · rw [updateFirst, if_pos hpx] at h
      rcases List.mem_cons.mp h with rfl | hmem
      · exact Or.inr ⟨x, by simp, rfl⟩
      · exact Or.inl (List.mem_cons_of_mem _ hmem)
    · rw [updateFirst, if_neg hpx] at h
      rcases List.mem_cons.mp h with rfl | hmem
      · exact Or.inl (by simp)
      · rcases ih hmem with h1 | ⟨b, hb, rfl⟩
        · exact Or.inl (List.mem_cons_of_mem _ h1)
        · exact Or.inr ⟨b, List.mem_cons_of_mem _ hb, rfl⟩

theorem map_updateFirst (g : α → β) (p : α → Bool) (f : α → α)
    (hg : ∀ a, g (f a) = g a) :
    ∀ l : List α, (updateFirst p f l).map g = l.map g := by
  intro l
  induction l with
  | nil => rfl
  | cons x xs ih =>
    by_cases hpx : p x = true
    · rw [updateFirst, if_pos hpx]
      simp [hg]
    · rw [updateFirst, if_neg hpx]
      simp only [List.map_cons, ih]

theorem length_updateFirst (p : α → Bool) (f : α → α) :
    ∀ l : List α, (updateFirst p f l).length = l.length := by
  intro l
  induction l with
  | nil => rfl
  | cons x xs ih =>
    by_cases hpx : p x = true
    · rw [updateFirst, if_pos hpx]
      simp
    · rw [updateFirst, if_neg hpx]
      simp [ih]

theorem find?_updateFirst (p : α → Bool) (f : α → α) (hpf : ∀ a, p (f a) = p a) :
    ∀ l : List α, (updateFirst p f l).find? p = (l.find? p).map f := by
  intro l
  induction l with
  | nil => rfl
  | cons x xs ih =>
    by_cases hpx : p x = true
    · rw [updateFirst, if_pos hpx, List.find?_cons_of_pos _ (by rw [hpf]; exact hpx),
        List.find?_cons_of_pos _ hpx]
      rfl
    · rw [updateFirst, if_neg hpx, List.find?_cons_of_neg _ hpx,
        List.find?_cons_of_neg _ hpx]
      exact ih

theorem mem_mapSet {m : List (String × ConnEntry)} {k : String} {v : ConnEntry}
    {e : String × ConnEntry} (h : e ∈ mapSet m k v) : e ∈ m ∨ e.2 = v := by
  unfold mapSet at h
  by_cases hm : m.any (fun p => p.1 == k) = true
  · rw [if_pos hm] at h
    obtain ⟨a, ha, hae⟩ := List.mem_map.mp h
    by_cases hak : (a.1 == k) = true
    · rw [if_pos hak] at hae
      right; rw [← hae]
    · rw [if_neg hak] at hae
      left; rw [← hae]; exact ha
  · rw [if_neg hm] at h
    rcases List.mem_append.mp h with h1 | h1
    · left; exact h1
    · right
      have : e = (k, v) := by simpa using h1
      rw [this]

/-! ## Lemmas about `countdown` -/

theorem mem_countdown_le : ∀ n m : Nat, m ∈ countdown n → m ≤ n := by
  intro n
  induction n with
  | zero => intro m h; simp [countdown] at h
  | succ n ih =>
    intro m h
    rw [countdown] at h
    rcases List.mem_cons.mp h with rfl | h
    · exact le_refl _
    · exact le_trans (ih m h) (by omega)

theorem countdown_pairwise : ∀ n : Nat, (countdown n).Pairwise (· > ·) := by
  intro n
  induction n with
  | zero => simp [countdown]
  | succ n ih =>
    rw [countdown]
    exact List.Pairwise.cons (fun m hm => by have := mem_countdown_le n m hm; omega) ih

/-! ## The order-store invariant and its preservation -/

theorem Inv.mono {st : ServerState} {lb lb' : Nat} (h : Inv st lb) (hle : lb ≤ lb') :
    Inv st lb' :=
  ⟨fun o ho => lt_of_lt_of_le (h.createdLt o ho) hle,
   fun o ho t ht => lt_of_lt_of_le (h.updatedLt o ho t ht) hle,
   h.createdDesc, h.idEq, h.nums⟩

theorem Inv.of_orders_eq {st st' : ServerState} {lb : Nat} (h : Inv st lb)
    (he : st'.orders = st.orders) : Inv st' lb :=
  ⟨by rw [he]; exact h.createdLt, by rw [he]; exact h.updatedLt,
   by rw [he]; exact h.createdDesc, by rw [he]; exact h.idEq,
   by rw [he]; exact h.nums⟩

theorem postOrder_valid_eq (st : ServerState) (body : Payload) (now : Nat)
    (he : validateOrderData body = []) :
    postOrder st body now =
      ({ st with orders := buildOrder st body now :: st.orders },
        .created (buildOrder st body now)) := by
  unfold postOrder
  rw [if_pos he]

theorem postOrder_invalid_eq (st : ServerState) (body : Payload) (now : Nat)
    (he : validateOrderData body ≠ []) :
    postOrder st body now = (st, .invalid (validateOrderData body)) := by
  unfold postOrder
  rw [if_neg he]

theorem postOrder_inv {st : ServerState} {lb : Nat} (h : Inv st lb) (body : Payload)
    {now : Nat} (hlb : lb ≤ now) : Inv (postOrder st body now).1 (now + 1) := by
  by_cases he : validateOrderData body = []
  · rw [postOrder_valid_eq st body now he]
    refine ⟨?_, ?_, ?_, ?_, ?_⟩
    · intro o ho
      rcases List.mem_cons.mp ho with rfl | ho
      · show now < now + 1
        omega
      · have := h.createdLt o ho
        omega
    · intro o ho t ht
      rcases List.mem_cons.mp ho with rfl | ho
      · exact absurd ht (by simp [buildOrder])
      · have := h.updatedLt o ho t ht
        omega
    · show (List.map Order.createdAt (buildOrder st body now :: st.orders)).Pairwise (· > ·)
      rw [List.map_cons]
      refine List.Pairwise.cons ?_ h.createdDesc
      intro x hx
      obtain ⟨o, ho, rfl⟩ := List.mem_map.mp hx
      have := h.createdLt o ho
      show now > o.createdAt
      omega
    · intro o ho
      rcases List.mem_cons.mp ho with rfl | ho
      · rfl
      · exact h.idEq o ho
    · show List.map Order.orderNumber (buildOrder st body now :: st.orders)
          = countdown (buildOrder st body now :: st.orders).length
      rw [List.map_cons, List.length_cons]
      show (st.orders.length + 1) :: List.map Order.orderNumber st.orders
          = countdown (st.orders.length + 1)
      rw [countdown, h.nums]
  · rw [postOrder_invalid_eq st body now he]
    exact h.mono (by omega)

theorem putOrderStatus_inv {st : ServerState} {lb : Nat} (h : Inv st lb)
    (oid s : String) {now : Nat} (hlb : lb ≤ now) :
    Inv (putOrderStatus st oid s now).1 (now + 1) := by
  unfold putOrderStatus
  by_cases hs : s ∈ validStatuses
  · rw [if_pos hs]
    by_cases hany : (st.orders.any (fun o => o.id == oid)) = true
    · rw [if_pos hany]
      refine ⟨?_, ?_, ?_, ?_, ?_⟩
      · intro o ho
        rcases mem_updateFirst ho with ho | ⟨b, hb, rfl⟩
        · have := h.createdLt o ho
          omega
        · show b.createdAt < now + 1
          have := h.createdLt b hb
          omega
      · intro o ho t ht
        rcases mem_updateFirst ho with ho | ⟨b, hb, rfl⟩
        · have := h.updatedLt o ho t ht
          omega
        · have : now = t := Option.some.inj ht
          omega
      · show (List.map Order.createdAt (updateFirst _ _ st.orders)).Pairwise (· > ·)
        rw [map_updateFirst Order.createdAt (fun o => o.id == oid)
          (fun o => { o with status := s, updatedAt := some now }) (fun a => rfl)]
        exact h.createdDesc
      · intro o ho
        rcases mem_updateFirst ho with ho | ⟨b, hb, rfl⟩
        · exact h.idEq o ho
        · exact h.idEq b hb
      · show List.map Order.orderNumber (updateFirst _ _ st.orders)
            = countdown (updateFirst _ _ st.orders).length
        rw [map_updateFirst Order.orderNumber (fun o => o.id == oid)
          (fun o => { o with status := s, updatedAt := some now }) (fun a => rfl),
          length_updateFirst]
        exact h.nums
    · rw [if_neg hany]
      exact h.mono (by omega)
  · rw [if_neg hs]
    exact h.mono (by omega)

/-! ## Which parts of the state each handler leaves untouched -/

theorem postMenu_orders (st : ServerState) (body : MenuPayload) (now : Nat) :
    (postMenu st body now).1.orders = st.orders := rfl

theorem putMenu_orders (st : ServerState) (itemId : Option ℚ) (patch : MenuPayload) (now : Nat) :
    (putMenu st itemId patch now).1.orders = st.orders := by
  unfold putMenu
  split <;> rfl

theorem deleteMenu_orders (st : ServerState) (itemId : Option ℚ) :
    (deleteMenu st itemId).1.orders = st.orders := by
  unfold deleteMenu
  split <;> rfl

theorem toggleItemAvailability_orders (st : ServerState) (itemId : Option ℚ) (avail : Bool) :
    (toggleItemAvailability st itemId avail).1.orders = st.orders := by
  unfold toggleItemAvailability
  split <;> rfl

theorem joinRoom_orders (st : ServerState) (sid : String) (data : Option JoinData) (now : Nat) :
    (joinRoom st sid data now).1.orders = st.orders := by
  unfold joinRoom
  rcases data with _ | ⟨ut, uid⟩
  · rfl
  · rcases ut with _ | s
    · rfl
    · dsimp only
      split <;> rfl

theorem trackOrder_orders (st : ServerState) (sid oid : String) :
    (trackOrder st sid oid).1.orders = st.orders := by
  unfold trackOrder
  cases getOrder st oid <;> rfl

theorem disconnect_orders (st : ServerState) (sid : String) :
    (disconnect st sid).1.orders = st.orders := by
  unfold disconnect
  split <;> rfl

theorem postOrder_users (st : ServerState) (body : Payload) (now : Nat) :
    (postOrder st body now).1.connectedUsers = st.connectedUsers := by
  unfold postOrder
  split <;> rfl

theorem putOrderStatus_users (st : ServerState) (oid s : String) (now : Nat) :
    (putOrderStatus st oid s now).1.connectedUsers = st.connectedUsers := by
  unfold putOrderStatus
  split
  · split <;> rfl
  · rfl

theorem postMenu_users (st : ServerState) (body : MenuPayload) (now : Nat) :
    (postMenu st body now).1.connectedUsers = st.connectedUsers := rfl

theorem putMenu_users (st : ServerState) (itemId : Option ℚ) (patch : MenuPayload) (now : Nat) :
    (putMenu st itemId patch now).1.connectedUsers = st.connectedUsers := by
  unfold putMenu
  split <;> rfl

theorem deleteMenu_users (st : ServerState) (itemId : Option ℚ) :
    (deleteMenu st itemId).1.connectedUsers = st.connectedUsers := by
  unfold deleteMenu
  split <;> rfl

theorem toggleItemAvailability_users (st : ServerState) (itemId : Option ℚ) (avail : Bool) :
    (toggleItemAvailability st itemId avail).1.connectedUsers = st.connectedUsers := by
  unfold toggleItemAvailability
  split <;> rfl

theorem trackOrder_users (st : ServerState) (sid oid : String) :
    (trackOrder st sid oid).1.connectedUsers = st.connectedUsers := by
  unfold trackOrder
  cases getOrder st oid <;> rfl

/-! ## Invariant preservation along a trace -/

theorem step_inv_some {st : ServerState} {lb : Nat} {op : Op} {n : Nat}
    (hop : opNow op = some n) (hlb : lb ≤ n) (h : Inv st lb) :
    Inv (step st op) (n + 1) := by
  cases op with
  | postOrder body now =>
    injection hop with hn
    subst hn
    exact postOrder_inv h body hlb
  | putOrderStatus oid s now =>
    injection hop with hn
    subst hn
    exact putOrderStatus_inv h oid s hlb
  | postMenu body now =>
    injection hop with hn
    subst hn
    exact (h.mono (by omega)).of_orders_eq (postMenu_orders st body _)
  | putMenu itemId patch now =>
    injection hop with hn
    subst hn
    exact (h.mono (by omega)).of_orders_eq (putMenu_orders st itemId patch _)
  | joinRoom sid data now =>
    injection hop with hn
    subst hn
    exact (h.mono (by omega)).of_orders_eq (joinRoom_orders st sid data _)
  | deleteMenu itemId => simp [opNow] at hop
  | toggleItemAvailability itemId avail => simp [opNow] at hop
  | trackOrder sid oid => simp [opNow] at hop
  | disconnect sid => simp [opNow] at hop

theorem step_inv_none {st : ServerState} {lb : Nat} {op : Op}
    (hop : opNow op = none) (h : Inv st lb) : Inv (step st op) lb := by
  cases op with
  | deleteMenu itemId => exact h.of_orders_eq (deleteMenu_orders st itemId)
  | toggleItemAvailability itemId avail =>
    exact h.of_orders_eq (toggleItemAvailability_orders st itemId avail)
  | trackOrder sid oid => exact h.of_orders_eq (trackOrder_orders st sid oid)
  | disconnect sid => exact h.of_orders_eq (disconnect_orders st sid)
  | postOrder body now => simp [opNow] at hop
  | putOrderStatus oid s now => simp [opNow] at hop
  | postMenu body now => simp [opNow] at hop
  | putMenu itemId patch now => simp [opNow] at hop
  | joinRoom sid data now => simp [opNow] at hop

theorem execFrom_inv :
    ∀ (ops : List Op) (st : ServerState) (lb : Nat), Inv st lb →
      nowsMonoB lb ops = true →
      Inv (execFrom st ops) (finalLB lb ops) ∧ lb ≤ finalLB lb ops := by
  intro ops
  induction ops with
  | nil =>
    intro st lb h _
    exact ⟨h, le_refl lb⟩
  | cons op rest ih =>
    intro st lb h hmono
    cases hop : opNow op with
    | some n =>
      simp only [nowsMonoB, hop, Bool.and_eq_true] at hmono
      obtain ⟨h1, h2⟩ := hmono
      have hle : lb ≤ n := Nat.le_of_ble_eq_true h1
      simp only [execFrom, finalLB, hop]
      obtain ⟨hi, hfin⟩ := ih (step st op) (n + 1) (step_inv_some hop hle h) h2
      exact ⟨hi, by omega⟩
    | none =>
      simp only [nowsMonoB, hop] at hmono
      simp only [execFrom, finalLB, hop]
      exact ih (step st op) lb (step_inv_none hop h) hmono

theorem initial_inv : Inv initialState 0 :=
  ⟨fun o ho => absurd ho (by simp [initialState]),
   fun o ho => absurd ho (by simp [initialState]),
   by simp [initialState],
   fun o ho => absurd ho (by simp [initialState]),
   by simp [initialState, countdown]⟩

theorem exec_inv (ops : List Op) (h : nowsMonoB 0 ops = true) :
    Inv (exec ops) (finalLB 0 ops) :=
  (execFrom_inv ops initialState 0 initial_inv h).1

/-! ## Core preservation: no operation deletes an order or mutates an
immutable field -/

theorem step_core_drop (st : ServerState) (op : Op) :
    ∃ k, ((step st op).orders.drop k).map Order.core = st.orders.map Order.core := by
  cases op with
  | postOrder body now =>
    by_cases he : validateOrderData body = []
    · refine ⟨1, ?_⟩
      show (((postOrder st body now).1.orders).drop 1).map Order.core = _
      rw [postOrder_valid_eq st body now he]
      rfl
    · refine ⟨0, ?_⟩
      show (((postOrder st body now).1.orders).drop 0).map Order.core = _
      rw [postOrder_invalid_eq st body now he]
      rfl
  | putOrderStatus oid s now =>
    refine ⟨0, ?_⟩
    show (((putOrderStatus st oid s now).1.orders).drop 0).map Order.core = _
    rw [List.drop_zero]
    unfold putOrderStatus
    split
    · split
      · exact map_updateFirst Order.core (fun o => o.id == oid)
          (fun o => { o with status := s, updatedAt := some now }) (fun a => rfl) st.orders
      · rfl
    · rfl
  | postMenu body now =>
    refine ⟨0, ?_⟩
    show (((postMenu st body now).1.orders).drop 0).map Order.core = _
    rw [postMenu_orders, List.drop_zero]
  | putMenu itemId patch now =>
    refine ⟨0, ?_⟩
    show (((putMenu st itemId patch now).1.orders).drop 0).map Order.core = _
    rw [putMenu_orders, List.drop_zero]
  | deleteMenu itemId =>
    refine ⟨0, ?_⟩
    show (((deleteMenu st itemId).1.orders).drop 0).map Order.core = _
    rw [deleteMenu_orders, List.drop_zero]
  | toggleItemAvailability itemId avail =>
    refine ⟨0, ?_⟩
    show (((toggleItemAvailability st itemId avail).1.orders).drop 0).map Order.core = _
    rw [toggleItemAvailability_orders, List.drop_zero]
  | joinRoom sid data now =>
    refine ⟨0, ?_⟩
    show (((joinRoom st sid data now).1.orders).drop 0).map Order.core = _
    rw [joinRoom_orders, List.drop_zero]
  | trackOrder sid oid =>
    refine ⟨0, ?_⟩
    show (((trackOrder st sid oid).1.orders).drop 0).map Order.core = _
    rw [trackOrder_orders, List.drop_zero]
  | disconnect sid =>
    refine ⟨0, ?_⟩
    show (((disconnect st sid).1.orders).drop 0).map Order.core = _
    rw [disconnect_orders, List.drop_zero]

/-! ## The presence-registry invariant -/

theorem roomInv_step {st : ServerState} (h : RoomInv st) (op : Op) :
    RoomInv (step st op) := by
  cases op with
  | joinRoom sid data now =>
    show RoomInv (joinRoom st sid data now).1
    unfold joinRoom
    rcases data with _ | ⟨ut, uid⟩
    · exact h
    · rcases ut with _ | s
      · exact h
      · dsimp only
        by_cases hs : s = ""
        · rw [if_pos hs]
          exact h
        · rw [if_neg hs]
          intro e he
          rcases mem_mapSet he with he | he2
          · exact h e he
          · rw [he2]
  | disconnect sid =>
    show RoomInv (disconnect st sid).1
    unfold disconnect
    split
    · intro e he
      exact h e (List.mem_of_mem_filter he)
    · exact h
  | postOrder body now =>
    intro e he
    rw [show step st (Op.postOrder body now) = (postOrder st body now).1 from rfl,
      postOrder_users] at he
    exact h e he
  | putOrderStatus oid s now =>
    intro e he
    rw [show step st (Op.putOrderStatus oid s now) = (putOrderStatus st oid s now).1 from rfl,
      putOrderStatus_users] at he
    exact h e he
  | postMenu body now =>
    intro e he
    rw [show step st (Op.postMenu body now) = (postMenu st body now).1 from rfl,
      postMenu_users] at he
    exact h e he
  | putMenu itemId patch now =>
    intro e he
    rw [show step st (Op.putMenu itemId patch now) = (putMenu st itemId patch now).1 from rfl,
      putMenu_users] at he
    exact h e he
  | deleteMenu itemId =>
    intro e he
    rw [show step st (Op.deleteMenu itemId) = (deleteMenu st itemId).1 from rfl,
      deleteMenu_users] at he
    exact h e he
  | toggleItemAvailability itemId avail =>
    intro e he
    rw [show step st (Op.toggleItemAvailability itemId avail)
        = (toggleItemAvailability st itemId avail).1 from rfl,
      toggleItemAvailability_users] at he
    exact h e he
  | trackOrder sid oid =>
    intro e he
    rw [show step st (Op.trackOrder sid oid) = (trackOrder st sid oid).1 from rfl,
      trackOrder_users] at he
    exact h e he

theorem roomInv_execFrom :
    ∀ (ops : List Op) (st : ServerState), RoomInv st → RoomInv (execFrom st ops) := by
  intro ops
  induction ops with
  | nil => intro st h; exact h
  | cons op rest ih =>
    intro st h
    exact ih (step st op) (roomInv_step h op)

theorem roomInv_exec (ops : List Op) : RoomInv (exec ops) :=
  roomInv_execFrom ops initialState (fun e he => absurd he (by simp [initialState]))

/-! ## Facts derived from the invariant -/

theorem Inv.ids_pairwise {st : ServerState} {lb : Nat} (h : Inv st lb) :
    (st.orders.map Order.id).Pairwise (· ≠ ·) := by
  rw [List.pairwise_map]
  have hd : st.orders.Pairwise (fun a b => a.createdAt > b.createdAt) := by
    have := h.createdDesc
    rwa [List.pairwise_map] at this
  refine List.Pairwise.imp_of_mem ?_ hd
  intro a b ha hb hab
  rw [h.idEq a ha, h.idEq b hb]
  intro hco
  have := orderId_inj _ _ hco
  omega

theorem Inv.nums_pairwise {st : ServerState} {lb : Nat} (h : Inv st lb) :
    (st.orders.map Order.orderNumber).Pairwise (· > ·) := by
  rw [h.nums]
  exact countdown_pairwise _

/-! ## The claims -/

/-- C1 (counterexample): the claim `calculateEstimatedTime([]) = 30` is false
on the code: an empty array is truthy and is an array, so it passes the guard
and yields the clamp floor 15, not the 30 default. -/
theorem claim_c1_counterexample :
    calculateEstimatedTime initMenuItems (some []) ≠ 30 := by
  have h : calculateEstimatedTime initMenuItems (some []) = 15 := by
    show min (max (15 + ⌈(0 : ℚ) / 2⌉) 15) 60 = 15
    norm_num
  rw [h]
  decide

/-- C1 (amended): for an empty line-item array the estimation policy returns
15 (base time with zero item time, clamped), for any catalog; the documented
default of 30 is returned exactly when `items` is missing or not an array. -/
theorem claim_c1 :
    (∀ menu : List MenuItem, calculateEstimatedTime menu (some []) = 15) ∧
    (∀ menu : List MenuItem, calculateEstimatedTime menu none = 30) := by
  constructor
  · intro menu
    show min (max (15 + ⌈(0 : ℚ) / 2⌉) 15) 60 = 15
    norm_num
  · intro menu
    rfl

/-- C6: the sanitizer removes script-tag blocks, then all remaining angle
brackets, then trims; in particular
`sanitizeString "<script>alert(1)</script>Hello" = "Hello"`. -/
theorem claim_c6 :
    sanitizeString "<script>alert(1)</script>Hello" = "Hello" ∧
    ∀ s : String, (sanitizeString s).data
        = jsTrim (removeAngles (removeScriptBlocks s.data)) :=
  ⟨by decide, fun s => rfl⟩

/-- C10: the sanitizer is idempotent — its output contains no angle brackets
and no surrounding whitespace, so sanitizing again changes nothing. -/
theorem claim_c10 :
    ∀ s : String, sanitizeString (sanitizeString s) = sanitizeString s := by
  intro s
  show (⟨sanitizeChars (sanitizeChars s.data)⟩ : String) = ⟨sanitizeChars s.data⟩
  rw [sanitizeChars_idem]

/-- C9: a `toggleItemAvailability` message whose `itemId` matches no catalog
item leaves the whole state unchanged and emits nothing — neither a
`menuUpdated` broadcast nor an error acknowledgment. -/
theorem claim_c9 :
    ∀ (st : ServerState) (itemId : Option ℚ) (avail : Bool),
      (∀ mi ∈ st.menuItems, idMatches itemId mi = false) →
      toggleItemAvailability st itemId avail = (st, []) := by
  intro st itemId avail h
  have hany : (st.menuItems.any (idMatches itemId)) = false := by
    rw [List.any_eq_false]
    intro mi hmi
    simp [h mi hmi]
  unfold toggleItemAvailability
  simp only [hany, Bool.false_eq_true, if_false]

/-- Witness for C9: toggling the unknown id 99 in the initial catalog is a
silent no-op. -/
theorem claim_c9_witness :
    toggleItemAvailability initialState (some 99) false = (initialState, []) :=
  claim_c9 initialState (some 99) false (by decide)

/-- C7: the estimation policy always lands in the documented clamp range
`[15, 60]` (for inputs whose quantities are numbers, the universe in which the
rational embedding is faithful); in particular a single line of quantity 2
whose catalog item has `preparationTime = 10` does. -/
theorem claim_c7 :
    (∀ (menu : List MenuItem) (items : Option (List LineItem)),
      (∀ l, items = some l → ∀ it ∈ l, (it.quantity).isSome = true) →
      15 ≤ calculateEstimatedTime menu items ∧ calculateEstimatedTime menu items ≤ 60) ∧
    (15 ≤ calculateEstimatedTime initMenuItems (some [qtyTwoLine]) ∧
      calculateEstimatedTime initMenuItems (some [qtyTwoLine]) ≤ 60) := by
  constructor
  · intro menu items _
    cases items with
    | none =>
      constructor <;> norm_num [calculateEstimatedTime]
    | some l =>
      unfold calculateEstimatedTime
      constructor
      · exact le_min (le_max_right _ _) (by norm_num)
      · exact min_le_right _ _
  · have hp : prepOf initMenuItems qtyTwoLine = 10 := by decide
    have hv : calculateEstimatedTime initMenuItems (some [qtyTwoLine]) = 25 := by
      show min (max (15 +
          ⌈(List.foldl (fun acc it => acc + prepOf initMenuItems it * it.quantity.getD 0)
              0 [qtyTwoLine]) / 2⌉) 15) 60 = 25
      simp only [List.foldl, hp]
      norm_num [qtyTwoLine]
    rw [hv]
    constructor <;> decide

/-- Witness for C7: the bound theorem applied at the concrete single-line
input, with the quantity-is-a-number hypothesis discharged. -/
theorem claim_c7_witness :
    15 ≤ calculateEstimatedTime initMenuItems (some [qtyTwoLine]) ∧
    calculateEstimatedTime initMenuItems (some [qtyTwoLine]) ≤ 60 := by
  refine claim_c7.1 initMenuItems (some [qtyTwoLine]) ?_
  intro l hl it hit
  have hll : l = [qtyTwoLine] := (Option.some.inj hl).symm
  subst hll
  simp only [List.mem_singleton] at hit
  subst hit
  decide

/-- C8: in every reachable presence registry, each connection entry's room is
its user type concatenated with `_room`; user types outside
`{customer, restaurant}` are reachable (e.g. `zebra`), produce rooms outside
the two-room topology, and are counted by the stats total but by neither the
customers nor the restaurants count. -/
theorem claim_c8 :
    (∀ ops : List Op, RoomInv (exec ops)) ∧
    (exec zebraTrace).connectedUsers
        = [("s1", { userType := "zebra", userId := some "u1",
                    roomName := "zebra_room", joinedAt := 5 })] ∧
    connectionStats (exec zebraTrace) = (0, 0, 1) ∧
    ("zebra_room" : String) ≠ "customer_room" ∧
    ("zebra_room" : String) ≠ "restaurant_room" :=
  ⟨roomInv_exec, by decide, by decide, by decide, by decide⟩

/-- Witness for C8: the registry invariant evaluated on the concrete zebra
join. -/
theorem claim_c8_witness :
    ∃ e, e ∈ (exec zebraTrace).connectedUsers ∧
      e.2.roomName = e.2.userType ++ "_room" := by
  have h := claim_c8.1 zebraTrace
  exact ⟨("s1", { userType := "zebra", userId := some "u1",
                  roomName := "zebra_room", joinedAt := 5 }),
    by decide, h _ (by decide)⟩

/-- C4: the validator returns the empty violation list exactly on payloads
satisfying the spec's rules; on any violation, order creation mutates nothing
and reports the full collected list; and a missing customer name always
contributes its violation message, independently of the other rules. -/
theorem claim_c4 :
    (∀ p : Payload, validateOrderData p = [] ↔ specValidPayload p) ∧
    (∀ (st : ServerState) (p : Payload) (now : Nat), validateOrderData p ≠ [] →
      (postOrder st p now).1 = st ∧
      (postOrder st p now).2 = .invalid (validateOrderData p)) ∧
    (∀ p : Payload, nameMissing p →
      "Customer name is required" ∈ validateOrderData p) := by
  refine ⟨validateOrderData_eq_nil_iff, ?_, ?_⟩
  · intro st p now he
    rw [postOrder_invalid_eq st p now he]
    exact ⟨rfl, rfl⟩
  · intro p hp
    rcases hp with hci | ⟨ci, hci, hname⟩
    · simp [validateOrderData, hci]
    · rcases hname with hname | hname <;> simp [validateOrderData, hci, hname]

/-- Witness for C4: a concrete payload with no customer name is rejected with
the customer-name violation and leaves the store untouched. -/
theorem claim_c4_witness :
    "Customer name is required" ∈ validateOrderData namelessPayload ∧
    (postOrder initialState namelessPayload 500).1 = initialState := by
  have hmem := claim_c4.2.2 namelessPayload
    (Or.inr ⟨{ name := none, phone := none, address := none }, rfl, Or.inl rfl⟩)
  have hne : validateOrderData namelessPayload ≠ [] := List.ne_nil_of_mem hmem
  exact ⟨hmem, (claim_c4.2.1 initialState namelessPayload 500 hne).1⟩

/-- C5 (counterexample): the claim that every accepted payload has a non-empty
name after sanitization is false — `"<>"` is non-empty, so it passes
validation, but sanitizes to the empty string, which is then stored. -/
theorem claim_c5_counterexample :
    validateOrderData angleNamePayload = [] ∧
    sanitizeString "<>" = "" ∧
    (postOrder initialState angleNamePayload 1000).1.orders.map
        (fun o => o.customer.name) = [some ""] := by
  refine ⟨by decide, by decide, ?_⟩
  decide

/-- C5 (amended): the validator checks the raw name for non-emptiness only;
every accepted payload has a non-empty raw name and is stored with the
sanitization of that raw name — which may be empty (e.g. for `"<>"`). -/
theorem claim_c5 :
    ∀ (st : ServerState) (p : Payload) (now : Nat), validateOrderData p = [] →
      ∃ ci s, p.customerInfo = some ci ∧ ci.name = some s ∧ s ≠ "" ∧
        ((postOrder st p now).1.orders.head?.map (fun o => o.customer.name))
            = some (some (sanitizeString s)) := by
  intro st p now hv
  obtain ⟨hitems, htotal, ⟨ci, s, hci, hname, hs⟩, hlines⟩ :=
    (validateOrderData_eq_nil_iff p).mp hv
  refine ⟨ci, s, hci, hname, hs, ?_⟩
  rw [postOrder_valid_eq st p now hv]
  simp [buildOrder, hci, hname]

/-- Witness for C5: the amended theorem evaluated at the `"<>"`-named payload;
the stored name is the (empty) sanitization of the raw name. -/
theorem claim_c5_witness :
    ((postOrder initialState angleNamePayload 1000).1.orders.head?.map
        (fun o => o.customer.name)) = some (some (sanitizeString "<>")) := by
  obtain ⟨ci, s, hci, hname, hs, hres⟩ :=
    claim_c5 initialState angleNamePayload 1000 (by decide)
  have hci' : some ({ name := some "<>", phone := none, address := none } : CustomerInfo)
      = some ci := hci
  cases Option.some.inj hci'
  have hname' : some "<>" = some s := hname
  cases Option.some.inj hname'
  exact hres

/-- C3: a status outside the closed enum is rejected with no state change; a
recognized status on an existing order rewrites exactly that order's `status`
and stamps `updatedAt` with the current time, which bounds every earlier
timestamp of the order. -/
theorem claim_c3 :
    ∀ (ops : List Op) (oid s : String) (now : Nat),
      nowsMonoB 0 ops = true → finalLB 0 ops ≤ now →
      (s ∉ validStatuses →
        putOrderStatus (exec ops) oid s now = (exec ops, .badStatus)) ∧
      (s ∈ validStatuses →
        ∀ o, getOrder (exec ops) oid = some o →
          getOrder (putOrderStatus (exec ops) oid s now).1 oid
              = some { o with status := s, updatedAt := some now } ∧
          (∀ t, o.updatedAt = some t → t ≤ now)) := by
  intro ops oid s now hm hle
  constructor
  · intro hs
    unfold putOrderStatus
    rw [if_neg hs]
  · intro hs o hgo
    have hi := exec_inv ops hm
    have hmem := List.mem_of_find?_eq_some hgo
    have hp := List.find?_some hgo
    constructor
    · unfold putOrderStatus
      rw [if_pos hs]
      have hany : ((exec ops).orders.any (fun o => o.id == oid)) = true :=
        List.any_eq_true.mpr ⟨o, hmem, hp⟩
      rw [if_pos hany]
      show (updateFirst (fun o : Order => o.id == oid)
          (fun o : Order => { o with status := s, updatedAt := some now })
          (exec ops).orders).find? (fun o : Order => o.id == oid) = _
      rw [find?_updateFirst (fun o : Order => o.id == oid)
        (fun o : Order => { o with status := s, updatedAt := some now }) (fun a => rfl),
        show List.find? (fun o : Order => o.id == oid) (exec ops).orders = some o from hgo]
      rfl
    · intro t ht
      have := hi.updatedLt o hmem t ht
      omega

/-- Witness for C3: on a store with one concrete order, an unrecognized status
is rejected without mutation, and a recognized one is visible through a
subsequent get. -/
theorem claim_c3_witness :
    putOrderStatus (exec createTrace) "X" "not-a-status" 200
        = (exec createTrace, .badStatus) ∧
    (getOrder (putOrderStatus (exec createTrace) (orderId 100) "preparing" 200).1
        (orderId 100)).map Order.status = some "preparing" := by
  have h1 := claim_c3 createTrace "X" "not-a-status" 200 (by decide) (by decide)
  refine ⟨h1.1 (by decide), ?_⟩
  have h2 := claim_c3 createTrace (orderId 100) "preparing" 200 (by decide) (by decide)
  cases hg : getOrder (exec createTrace) (orderId 100) with
  | none => exact absurd hg (by decide)
  | some o =>
    have h3 := (h2.2 (by decide) o hg).1
    rw [h3]
    rfl

/-- C2: under the serialized-clock assumption, order numbers strictly decrease
front to back (each new order exceeds all previous) and ids are pairwise
distinct; a valid creation is inserted at the front with number
`count + 1` and a fresh id; and no operation ever deletes an order or changes
any field other than `status`/`updatedAt`. -/
theorem claim_c2 :
    (∀ ops : List Op, nowsMonoB 0 ops = true →
      ((exec ops).orders.map Order.id).Pairwise (· ≠ ·) ∧
      ((exec ops).orders.map Order.orderNumber).Pairwise (· > ·)) ∧
    (∀ (ops : List Op) (body : Payload) (now : Nat),
      nowsMonoB 0 ops = true → finalLB 0 ops ≤ now → validateOrderData body = [] →
      (postOrder (exec ops) body now).1.orders
          = buildOrder (exec ops) body now :: (exec ops).orders ∧
      (postOrder (exec ops) body now).2 = .created (buildOrder (exec ops) body now) ∧
      (buildOrder (exec ops) body now).orderNumber = (exec ops).orders.length + 1 ∧
      (∀ o ∈ (exec ops).orders,
        o.orderNumber < (buildOrder (exec ops) body now).orderNumber ∧
        o.id ≠ (buildOrder (exec ops) body now).id)) ∧
    (∀ (st : ServerState) (op : Op),
      ∃ k, ((step st op).orders.drop k).map Order.core = st.orders.map Order.core) := by
  refine ⟨?_, ?_, step_core_drop⟩
  · intro ops h
    have hi := exec_inv ops h
    exact ⟨hi.ids_pairwise, hi.nums_pairwise⟩
  · intro ops body now hm hle hv
    have hi := exec_inv ops hm
    rw [postOrder_valid_eq _ _ _ hv]
    refine ⟨rfl, rfl, rfl, ?_⟩
    intro o ho
    constructor
    · have hmem : o.orderNumber ∈ (exec ops).orders.map Order.orderNumber :=
        List.mem_map_of_mem _ ho
      rw [hi.nums] at hmem
      have := mem_countdown_le _ _ hmem
      show o.orderNumber < (exec ops).orders.length + 1
      omega
    · have hid := hi.idEq o ho
      have hlt := hi.createdLt o ho
      show o.id ≠ orderId now
      rw [hid]
      intro hco
      have := orderId_inj _ _ hco
      omega

/-- Witness for C2: the invariants evaluated on a concrete serialized trace,
and a concrete valid creation on top of it. -/
theorem claim_c2_witness :
    ((exec sampleTrace).orders.map Order.id).Pairwise (· ≠ ·) ∧
    (postOrder (exec sampleTrace) samplePayload 200).1.orders
        = buildOrder (exec sampleTrace) samplePayload 200 :: (exec sampleTrace).orders ∧
    (buildOrder (exec sampleTrace) samplePayload 200).orderNumber
        = (exec sampleTrace).orders.length + 1 := by
  have h1 := (claim_c2.1 sampleTrace (by decide)).1
  have h2 := claim_c2.2.1 sampleTrace samplePayload 200 (by decide) (by decide) (by decide)
  exact ⟨h1, h2.1, h2.2.2.1⟩

end Zaika
